import Mathlib

/-!
Verification development for the transaction-pool core of the reth
repository, centred on `crates/transaction-pool/src/traits.rs`.

The first part of the file is a shallow embedding of the concrete code in
`traits.rs` (the `EthPooledTransaction` constructor and conversions, the
blob-sidecar state, `PoolSize`, `CanonicalStateUpdate::block_info`,
`GetPooledTransactionLimit::exceeds`).  Machine integers are modelled as
`Nat` with explicit saturation bounds where the source uses saturating
arithmetic on `u128` / `U256`.

The second part is a model of the pool state machine (sub-pool
classification, insertion/replacement, canonical-state updates, the
best-transactions iterator).  The implementation of that state machine is
not part of the sources at hand — `traits.rs` only declares its interface —
so those definitions are modelled from the specification text and are
marked as such in their doc comments.
-/

/-! ## Saturating machine arithmetic -/

/-- Largest value of a Rust `u128`. -/
def U128_MAX : Nat := 2 ^ 128 - 1

/-- Largest value of an alloy `U256`. -/
def U256_MAX : Nat := 2 ^ 256 - 1

/-- `u128::saturating_mul`. -/
def satMulU128 (a b : Nat) : Nat := min (a * b) U128_MAX

/-- `U256::saturating_mul`. -/
def satMulU256 (a b : Nat) : Nat := min (a * b) U256_MAX

/-- `U256::saturating_add`. -/
def satAddU256 (a b : Nat) : Nat := min (a + b) U256_MAX

/-! ## Consensus transactions

A minimal model of the alloy consensus transaction as seen through the
accessors that `traits.rs` uses: transaction type, nonce, gas limit, fee
fields, value, and the blob fields (which the accessors report only for
EIP-4844 transactions). Hash and sender stand for the recovered signer and
the transaction hash of `Recovered<TransactionSigned>`. -/

/-- The EIP-2718 transaction type of a consensus transaction. -/
inductive TxType
  | legacy
  | eip2930
  | eip1559
  | eip4844
  | eip7702
deriving DecidableEq, Repr

/-- A recovered consensus transaction, with the fields the pool code reads.
`blob_gas_used_val` and `max_fee_per_blob_gas_val` are the raw EIP-4844
fields; the accessors below expose them as `Option`s exactly when the
transaction type is EIP-4844, mirroring the alloy accessors. -/
structure Transaction where
  hash : Nat
  sender : Nat
  nonce : Nat
  ty : TxType
  gas_limit : Nat
  max_fee_per_gas : Nat
  max_priority_fee_per_gas : Nat
  value : Nat
  blob_gas_used_val : Nat
  max_fee_per_blob_gas_val : Nat
deriving DecidableEq, Repr

/-- `Typed2718::is_eip4844`. -/
def Transaction.is_eip4844 (t : Transaction) : Bool :=
  decide (t.ty = TxType.eip4844)

/-- `alloy_consensus::Transaction::blob_gas_used`: reported only for
EIP-4844 transactions. -/
def Transaction.blob_gas_used (t : Transaction) : Option Nat :=
  if t.ty = TxType.eip4844 then some t.blob_gas_used_val else none

/-- `alloy_consensus::Transaction::max_fee_per_blob_gas`: reported only for
EIP-4844 transactions. -/
def Transaction.max_fee_per_blob_gas (t : Transaction) : Option Nat :=
  if t.ty = TxType.eip4844 then some t.max_fee_per_blob_gas_val else none

/-! ## Blob sidecars and the pooled transaction record -/

/-- `BlobTransactionSidecarVariant`: the actual blob payload (blobs,
commitments, proofs), modelled as opaque content. -/
structure BlobTransactionSidecarVariant where
  blobs : List Nat
deriving DecidableEq, Repr

/-- `EthBlobTransactionSidecar`: the sidecar state of a pooled transaction. -/
inductive EthBlobTransactionSidecar
  | None
  | Missing
  | Present (sidecar : BlobTransactionSidecarVariant)
deriving DecidableEq, Repr

/-- `EthBlobTransactionSidecar::maybe_sidecar`. -/
def EthBlobTransactionSidecar.maybe_sidecar :
    EthBlobTransactionSidecar → Option BlobTransactionSidecarVariant
  | .Present sidecar => some sidecar
  | _ => none

/-- `EthPooledTransaction`: a consensus transaction together with the cached
cost, the cached RLP length and the blob-sidecar state. -/
structure EthPooledTransaction where
  transaction : Transaction
  cost : Nat
  encoded_length : Nat
  blob_sidecar : EthBlobTransactionSidecar
deriving DecidableEq, Repr

/-- `EthPooledTransaction::new`, translated statement by statement: start
from sidecar state `None`, compute `gas_cost = U256::from(max_fee_per_gas)
.saturating_mul(U256::from(gas_limit))`, add the value saturating, and if
both blob accessors report a value, add the (u128-saturating) blob cost and
mark the sidecar `Missing`. -/
def EthPooledTransaction.new (transaction : Transaction)
    (encoded_length : Nat) : EthPooledTransaction :=
  let blob_sidecar := EthBlobTransactionSidecar.None
  let gas_cost := satMulU256 transaction.max_fee_per_gas transaction.gas_limit
  let cost := satAddU256 gas_cost transaction.value
  match transaction.blob_gas_used, transaction.max_fee_per_blob_gas with
  | some blob_gas_used, some fee_per_blob_gas =>
      { transaction := transaction
        cost := satAddU256 cost (satMulU128 fee_per_blob_gas blob_gas_used)
        encoded_length := encoded_length
        blob_sidecar := EthBlobTransactionSidecar.Missing }
  | _, _ =>
      { transaction := transaction
        cost := cost
        encoded_length := encoded_length
        blob_sidecar := blob_sidecar }

/-- `PooledTransactionVariant`, the network format: either an EIP-4844
transaction bundled with its sidecar, or any other transaction.  The
EIP-2718 encoding length is carried as data (`encode_2718_len` is computed
outside this crate). -/
inductive PooledTransactionVariant
  | eip4844 (tx : Transaction) (sidecar : BlobTransactionSidecarVariant)
      (encLen : Nat)
  | other (tx : Transaction) (encLen : Nat)
deriving DecidableEq, Repr

/-- `EthPooledTransaction::from_pooled`: build via `new` from the consensus
part; in the EIP-4844 case additionally overwrite the sidecar state with
`Present(blob)`. -/
def EthPooledTransaction.from_pooled :
    PooledTransactionVariant → EthPooledTransaction
  | .eip4844 tx blob encLen =>
      let pooled := EthPooledTransaction.new tx encLen
      { pooled with blob_sidecar := EthBlobTransactionSidecar.Present blob }
  | .other tx encLen => EthPooledTransaction.new tx encLen

/-- `EthPoolTransaction::take_blob` for `EthPooledTransaction`: for an
EIP-4844 transaction, `mem::replace` the sidecar state with `Missing` and
return the old state; otherwise leave the record alone and return `None`.
Modelled as returning the updated record next to the extracted value. -/
def EthPooledTransaction.take_blob (p : EthPooledTransaction) :
    EthPooledTransaction × EthBlobTransactionSidecar :=
  if p.transaction.is_eip4844 then
    ({ p with blob_sidecar := EthBlobTransactionSidecar.Missing },
      p.blob_sidecar)
  else
    (p, EthBlobTransactionSidecar.None)

/-! ## Pool status, block info and canonical updates -/

/-- `PoolSize`: the counts and byte sizes reported for the four sub-pools,
plus the total. -/
structure PoolSize where
  pending : Nat
  pending_size : Nat
  blob : Nat
  blob_size : Nat
  basefee : Nat
  basefee_size : Nat
  queued : Nat
  queued_size : Nat
  total : Nat
deriving DecidableEq, Repr

/-- `BlockInfo`: the chain view the pool tracks. -/
structure BlockInfo where
  last_seen_block_hash : Nat
  last_seen_block_number : Nat
  block_gas_limit : Nat
  pending_basefee : Nat
  pending_blob_fee : Option Nat
deriving DecidableEq, Repr

/-- A sealed block as read by `CanonicalStateUpdate` (hash, number, gas
limit, timestamp). -/
structure SealedBlock where
  hash : Nat
  number : Nat
  gas_limit : Nat
  timestamp : Nat
deriving DecidableEq, Repr

/-- `ChangedAccount`: post-update account state for a sender. -/
structure ChangedAccount where
  address : Nat
  nonce : Nat
  balance : Nat
deriving DecidableEq, Repr

/-- `PoolUpdateKind`. -/
inductive PoolUpdateKind
  | Commit
  | Reorg
deriving DecidableEq, Repr

/-- `CanonicalStateUpdate`: changes after new canonical blocks. -/
structure CanonicalStateUpdate where
  new_tip : SealedBlock
  pending_block_base_fee : Nat
  pending_block_blob_fee : Option Nat
  changed_accounts : List ChangedAccount
  mined_transactions : List Nat
  update_kind : PoolUpdateKind
deriving DecidableEq, Repr

/-- `CanonicalStateUpdate::number`. -/
def CanonicalStateUpdate.number (u : CanonicalStateUpdate) : Nat :=
  u.new_tip.number

/-- `CanonicalStateUpdate::hash`. -/
def CanonicalStateUpdate.hash (u : CanonicalStateUpdate) : Nat :=
  u.new_tip.hash

/-- `CanonicalStateUpdate::timestamp`. -/
def CanonicalStateUpdate.timestamp (u : CanonicalStateUpdate) : Nat :=
  u.new_tip.timestamp

/-- `CanonicalStateUpdate::block_info`. -/
def CanonicalStateUpdate.block_info (u : CanonicalStateUpdate) : BlockInfo :=
  { block_gas_limit := u.new_tip.gas_limit
    last_seen_block_hash := u.hash
    last_seen_block_number := u.number
    pending_basefee := u.pending_block_base_fee
    pending_blob_fee := u.pending_block_blob_fee }

/-- `GetPooledTransactionLimit`. -/
inductive GetPooledTransactionLimit
  | None
  | ResponseSizeSoftLimit (limit : Nat)
deriving DecidableEq, Repr

/-- `GetPooledTransactionLimit::exceeds`. -/
def GetPooledTransactionLimit.exceeds :
    GetPooledTransactionLimit → Nat → Bool
  | .None, _ => false
  | .ResponseSizeSoftLimit limit, size => decide (limit < size)

/-! ## The pool state machine

Modelled from the spec: the pool implementation (sub-pool classification,
insertion and replacement, canonical-state updates, the blob store) is not
among the sources at hand — `traits.rs` only declares its interface — so
the definitions in this section follow the specification's data model
(§3), insertion contract (§4.4) and canonical-state reactor (§4.5).
Resource-limit eviction and balance tracking are outside the claims under
consideration and are not modelled. -/

/-- The four sub-pools, ordered `Queued < BaseFee < Blob < Pending`. -/
inductive SubPool
  | Queued
  | BaseFee
  | Blob
  | Pending
deriving DecidableEq, Repr

/-- Modelled from the spec: a pool record is the pooled transaction together
with its insertion timestamp. -/
structure PoolRecord where
  ptx : EthPooledTransaction
  timestamp : Nat
deriving DecidableEq, Repr

/-- The consensus transaction inside a pool record. -/
def PoolRecord.tx (r : PoolRecord) : Transaction := r.ptx.transaction

/-- Modelled from the spec: a pool entry is a record together with the
sub-pool the pool has currently assigned it to. -/
structure PoolEntry where
  record : PoolRecord
  assigned : SubPool
deriving DecidableEq, Repr

/-- Modelled from the spec: the pool state — the pool index with sub-pool
assignments, the per-sender on-chain nonces, the fee thresholds for the
pending block, the blob store, and the tracked block info. -/
structure PoolState where
  entries : List PoolEntry
  on_chain_nonce : Nat → Nat
  pending_basefee : Nat
  pending_blob_fee : Option Nat
  blob_store : List (Nat × BlobTransactionSidecarVariant)
  last_seen_block_hash : Nat
  last_seen_block_number : Nat
  block_gas_limit : Nat

/-- Does the pool hold a transaction of `sender` with nonce `nonce`? -/
def PoolState.hasTx (s : PoolState) (sender nonce : Nat) : Bool :=
  s.entries.any fun e =>
    decide (e.record.tx.sender = sender ∧ e.record.tx.nonce = nonce)

/-- Does the pool hold a transaction with the given hash? -/
def PoolState.containsHash (s : PoolState) (h : Nat) : Bool :=
  s.entries.any fun e => decide (e.record.tx.hash = h)

/-- Modelled from the spec (§3): `t` is nonce-consecutive from the sender's
on-chain nonce — its nonce is at least the on-chain nonce and every nonce
strictly between the two is held by some transaction of the same sender. -/
def nonceConsecutive (s : PoolState) (t : Transaction) : Bool :=
  decide (s.on_chain_nonce t.sender ≤ t.nonce) &&
    (List.range (t.nonce - s.on_chain_nonce t.sender)).all fun i =>
      s.hasTx t.sender (s.on_chain_nonce t.sender + i)

/-- Modelled from the spec (§3): the transaction's fee cap clears the
pending base fee. -/
def feeOk (s : PoolState) (t : Transaction) : Bool :=
  decide (s.pending_basefee ≤ t.max_fee_per_gas)

/-- Modelled from the spec (§3): the transaction's blob-fee cap clears the
pending blob fee (trivially true before Cancun, when no blob fee is
tracked). -/
def blobFeeOk (s : PoolState) (t : Transaction) : Bool :=
  match s.pending_blob_fee with
  | none => true
  | some f => decide (f ≤ t.max_fee_per_blob_gas_val)

/-- The record's blob sidecar is attached. -/
def sidecarPresent (r : PoolRecord) : Bool :=
  match r.ptx.blob_sidecar with
  | .Present _ => true
  | _ => false

/-- Modelled from the spec (§3, sub-pool rules): the target sub-pool of a
record under the current pool state.  A nonce-gapped record is queued; a
nonce-consecutive blob record is pending when all of the base fee, the blob
fee and the sidecar requirements are met and parked in the blob sub-pool
otherwise; a nonce-consecutive non-blob record is pending when the base fee
is cleared and parked in the basefee sub-pool otherwise. -/
def targetSubPool (s : PoolState) (r : PoolRecord) : SubPool :=
  if nonceConsecutive s r.tx then
    if r.tx.is_eip4844 then
      if feeOk s r.tx && blobFeeOk s r.tx && sidecarPresent r then
        SubPool.Pending
      else SubPool.Blob
    else if feeOk s r.tx then SubPool.Pending
    else SubPool.BaseFee
  else SubPool.Queued

/-- Modelled from the spec (§4.4 step 6, §4.5 step 5): recompute the
sub-pool assignment of every entry under the current state. -/
def reclassifyAll (s : PoolState) : PoolState :=
  { s with
    entries := s.entries.map fun e =>
      { e with assigned := targetSubPool s e.record } }

/-- The outcome surfaced by an insertion attempt (§7 error taxonomy,
restricted to the conditions the model tracks). -/
inductive AddOutcome
  | added
  | alreadyImported
  | nonceTooLow
  | replaceUnderpriced
deriving DecidableEq, Repr

/-- Events the model records (§4.7), restricted to those the claims
mention. -/
inductive PoolEvent
  | replaced (hash : Nat)
  | mined (hash : Nat)
deriving DecidableEq, Repr

/-- The incumbent transaction of the same sender and nonce, if any. -/
def findCollision (s : PoolState) (t : Transaction) : Option PoolEntry :=
  s.entries.find? fun e =>
    decide (e.record.tx.sender = t.sender ∧ e.record.tx.nonce = t.nonce)

/-- The default `price_bump_percent` configuration value. -/
def price_bump_percent : Nat := 10

/-- Modelled from the spec (§4.4 replacement policy): the incoming
transaction must bid at least `bump` percent higher than the incumbent on
both `max_fee_per_gas` and `max_priority_fee_per_gas`, and for blob
transactions also on `max_fee_per_blob_gas`. -/
def bumpOk (incumbent incoming : Transaction) (bump : Nat) : Bool :=
  decide (incumbent.max_fee_per_gas * (100 + bump) ≤
      incoming.max_fee_per_gas * 100) &&
    decide (incumbent.max_priority_fee_per_gas * (100 + bump) ≤
      incoming.max_priority_fee_per_gas * 100) &&
    (if incumbent.is_eip4844 then
      decide (incumbent.max_fee_per_blob_gas_val * (100 + bump) ≤
        incoming.max_fee_per_blob_gas_val * 100)
    else true)

/-- Record a `Present` sidecar in the blob store under the transaction
hash (§3 blob-store invariant). -/
def storeSidecar (store : List (Nat × BlobTransactionSidecarVariant))
    (h : Nat) : EthBlobTransactionSidecar →
      List (Nat × BlobTransactionSidecarVariant)
  | .Present sidecar => (h, sidecar) :: store
  | _ => store

/-- Modelled from the spec (§4.4 insertion contract): reject duplicates and
too-low nonces; on a (sender, nonce) collision apply the replacement
policy, evicting the incumbent only when the incoming bid clears the price
bump on every applicable fee; otherwise append the record; finally
recompute every sub-pool assignment. -/
def addTransaction (s : PoolState) (r : PoolRecord) :
    PoolState × AddOutcome × List PoolEvent :=
  if s.containsHash r.tx.hash then (s, AddOutcome.alreadyImported, [])
  else if decide (r.tx.nonce < s.on_chain_nonce r.tx.sender) then
    (s, AddOutcome.nonceTooLow, [])
  else
    match findCollision s r.tx with
    | some inc =>
        if bumpOk inc.record.tx r.tx price_bump_percent then
          let s1 : PoolState :=
            { s with
              entries :=
                (s.entries.filter fun e =>
                  decide (e.record.tx.hash ≠ inc.record.tx.hash)) ++
                  [{ record := r, assigned := SubPool.Queued }]
              blob_store :=
                storeSidecar s.blob_store r.tx.hash r.ptx.blob_sidecar }
          (reclassifyAll s1, AddOutcome.added,
            [PoolEvent.replaced inc.record.tx.hash])
        else (s, AddOutcome.replaceUnderpriced, [])
    | none =>
        let s1 : PoolState :=
          { s with
            entries :=
              s.entries ++ [{ record := r, assigned := SubPool.Queued }]
            blob_store :=
              storeSidecar s.blob_store r.tx.hash r.ptx.blob_sidecar }
        (reclassifyAll s1, AddOutcome.added, [])

/-- The on-chain nonce map after a list of changed accounts is applied. -/
def updatedNonces (f : Nat → Nat) (accs : List ChangedAccount) :
    Nat → Nat := fun a =>
  match accs.find? (fun c => decide (c.address = a)) with
  | some c => c.nonce
  | none => f a

/-- Modelled from the spec (§4.5 step 3): apply the changed accounts —
update the tracked on-chain nonces and drop every transaction whose nonce
is now below its sender's on-chain nonce. -/
def applyChangedAccounts (s : PoolState) (accs : List ChangedAccount) :
    PoolState :=
  let f := updatedNonces s.on_chain_nonce accs
  { s with
    on_chain_nonce := f
    entries := s.entries.filter fun e =>
      decide (f e.record.tx.sender ≤ e.record.tx.nonce) }

/-- Modelled from the spec (§4.5 step 1): record the new block info and
fee thresholds from the update's `block_info`. -/
def recordBlockInfo (s : PoolState) (u : CanonicalStateUpdate) : PoolState :=
  let info := u.block_info
  { s with
    last_seen_block_hash := info.last_seen_block_hash
    last_seen_block_number := info.last_seen_block_number
    block_gas_limit := info.block_gas_limit
    pending_basefee := info.pending_basefee
    pending_blob_fee := info.pending_blob_fee }

/-- Modelled from the spec (§4.5 step 2): remove the mined transactions
from the pool index; the blob store is untouched. -/
def removeMined (s : PoolState) (mined : List Nat) : PoolState :=
  { s with
    entries := s.entries.filter fun e =>
      ! mined.contains e.record.tx.hash }

/-- The `Mined` events for the transactions the update removes. -/
def minedEventsOf (s : PoolState) (mined : List Nat) : List PoolEvent :=
  (s.entries.filter fun e => mined.contains e.record.tx.hash).map
    fun e => PoolEvent.mined e.record.tx.hash

/-- Modelled from the spec (§4.5 canonical-state reactor): record the new
block info and fee thresholds, remove the mined transactions from the pool
index (the blob store is untouched), apply the changed accounts, and
reclassify every remaining entry; a `Mined` event is emitted for every
removed transaction. -/
def applyCanonicalUpdate (s : PoolState) (u : CanonicalStateUpdate) :
    PoolState × List PoolEvent :=
  let s1 := recordBlockInfo s u
  let s2 := removeMined s1 u.mined_transactions
  let s3 := applyChangedAccounts s2 u.changed_accounts
  (reclassifyAll s3, minedEventsOf s1 u.mined_transactions)

/-- Attach a sidecar to one entry when its hash matches and its sidecar is
currently `Missing`; otherwise leave the entry alone. -/
def attachEntry (h : Nat) (sc : BlobTransactionSidecarVariant)
    (e : PoolEntry) : PoolEntry :=
  if e.record.tx.hash = h ∧
      e.record.ptx.blob_sidecar = EthBlobTransactionSidecar.Missing
  then
    { e with
      record :=
        { e.record with
          ptx :=
            { e.record.ptx with
              blob_sidecar := EthBlobTransactionSidecar.Present sc } } }
  else e

/-- Modelled from the spec (§6 `attach_sidecar`): attach a sidecar to a
blob transaction whose sidecar is missing, record it in the blob store, and
reclassify. -/
def attachSidecar (s : PoolState) (h : Nat)
    (sc : BlobTransactionSidecarVariant) : PoolState :=
  let hadMissing := s.entries.any fun e =>
    decide (e.record.tx.hash = h) &&
      decide (e.record.ptx.blob_sidecar = EthBlobTransactionSidecar.Missing)
  let s1 : PoolState :=
    { s with
      entries := s.entries.map (attachEntry h sc)
      blob_store := if hadMissing then (h, sc) :: s.blob_store
        else s.blob_store }
  reclassifyAll s1

/-- `TransactionPoolExt::delete_blob`: remove a sidecar from the blob store
only — the pool index is untouched. -/
def deleteBlob (s : PoolState) (h : Nat) : PoolState :=
  { s with blob_store := s.blob_store.filter fun p => decide (p.1 ≠ h) }

/-- `get_blob`: look up a sidecar in the blob store. -/
def getBlob (s : PoolState) (h : Nat) :
    Option BlobTransactionSidecarVariant :=
  (s.blob_store.find? fun p => decide (p.1 = h)).map Prod.snd

/-- The public operations of the pool. -/
inductive PoolOp
  | add (r : PoolRecord)
  | canon (u : CanonicalStateUpdate)
  | attach (h : Nat) (sc : BlobTransactionSidecarVariant)
  | delBlob (h : Nat)

/-- One public operation, as a state transformer. -/
def PoolState.step (s : PoolState) : PoolOp → PoolState
  | .add r => (addTransaction s r).1
  | .canon u => (applyCanonicalUpdate s u).1
  | .attach h sc => attachSidecar s h sc
  | .delBlob h => deleteBlob s h

/-- Run a sequence of public operations. -/
def applyOps (s : PoolState) : List PoolOp → PoolState
  | [] => s
  | op :: ops => applyOps (s.step op) ops

/-- The empty pool over given on-chain nonces and fee thresholds. -/
def initPool (nonce : Nat → Nat) (basefee : Nat) (blobfee : Option Nat) :
    PoolState :=
  { entries := []
    on_chain_nonce := nonce
    pending_basefee := basefee
    pending_blob_fee := blobfee
    blob_store := []
    last_seen_block_hash := 0
    last_seen_block_number := 0
    block_gas_limit := 0 }

/-- A pool state reachable from an empty pool by public operations. -/
def Reachable (s : PoolState) : Prop :=
  ∃ nonce basefee blobfee ops,
    s = applyOps (initPool nonce basefee blobfee) ops

/-- Every entry's stored assignment agrees with the sub-pool rules under
the current state. -/
def Classified (s : PoolState) : Prop :=
  ∀ e ∈ s.entries, e.assigned = targetSubPool s e.record

/-- `pool_size`: the per-sub-pool counts and byte sizes, and the total. -/
def pool_size (s : PoolState) : PoolSize :=
  let count := fun (p : SubPool) =>
    (s.entries.filter fun e => decide (e.assigned = p)).length
  let bytes := fun (p : SubPool) =>
    ((s.entries.filter fun e => decide (e.assigned = p)).map
      fun e => e.record.ptx.encoded_length).sum
  { pending := count SubPool.Pending
    pending_size := bytes SubPool.Pending
    blob := count SubPool.Blob
    blob_size := bytes SubPool.Blob
    basefee := count SubPool.BaseFee
    basefee_size := bytes SubPool.BaseFee
    queued := count SubPool.Queued
    queued_size := bytes SubPool.Queued
    total := s.entries.length }

/-! ## The best-transactions iterator

Modelled from the spec (§4.6): the iterator implementation behind the
`BestTransactions` trait of `traits.rs` is not among the sources at hand,
so it is modelled as a cursor over a snapshot of candidate records.  At
each step it yields, among the currently executable records (those with no
lower-nonce record of the same sender left in the snapshot), the one with
the highest effective priority fee, breaking ties by older insertion
timestamp and then by smaller hash.  `mark_invalid` removes a record and
every record of the same sender with a nonce at least as large. -/

/-- Modelled from the spec (§4.3): effective priority fee under base fee
`b` is `min(max_priority_fee_per_gas, max_fee_per_gas - b)`, floored at
zero (`Nat` subtraction). -/
def effectivePriorityFee (basefee : Nat) (t : Transaction) : Nat :=
  min t.max_priority_fee_per_gas (t.max_fee_per_gas - basefee)

/-- The iterator state: the configured base fee and the remaining snapshot
of candidate records. -/
structure BestIter where
  basefee : Nat
  txs : List PoolRecord
deriving Repr

/-- Record `a` is strictly better than `b` for yield order: higher
effective priority fee, ties by older timestamp, then by smaller hash. -/
def betterThan (basefee : Nat) (a b : PoolRecord) : Bool :=
  let fa := effectivePriorityFee basefee a.tx
  let fb := effectivePriorityFee basefee b.tx
  decide (fb < fa) ||
    (decide (fa = fb) &&
      (decide (a.timestamp < b.timestamp) ||
        (decide (a.timestamp = b.timestamp) &&
          decide (a.tx.hash < b.tx.hash))))

/-- The best record of a candidate list, if any. -/
def bestOf (basefee : Nat) : List PoolRecord → Option PoolRecord
  | [] => none
  | r :: rs =>
      match bestOf basefee rs with
      | none => some r
      | some b => if betterThan basefee r b then some r else some b

/-- A record is currently executable: no record of the same sender with a
smaller nonce remains in the snapshot. -/
def executableNow (txs : List PoolRecord) (r : PoolRecord) : Bool :=
  ! txs.any fun x =>
    decide (x.tx.sender = r.tx.sender ∧ x.tx.nonce < r.tx.nonce)

/-- One iterator step: yield the best currently-executable record and
remove it from the snapshot. -/
def BestIter.next (it : BestIter) : Option (PoolRecord × BestIter) :=
  match bestOf it.basefee (it.txs.filter (executableNow it.txs)) with
  | none => none
  | some r => some (r, { it with txs := it.txs.erase r })

/-- Modelled from the spec (§4.6 `mark_invalid`): remove the given
transaction and every transaction of the same sender with a nonce at least
as large from the remaining yield set. -/
def BestIter.mark_invalid (it : BestIter) (t : Transaction) : BestIter :=
  { it with
    txs := it.txs.filter fun r =>
      ! decide (r.tx.sender = t.sender ∧ t.nonce ≤ r.tx.nonce) }

/-- Consumer actions on a best-transactions iterator: pull the next
transaction, or mark one invalid. -/
inductive IterOp
  | pull
  | invalid (t : Transaction)

/-- Run a sequence of consumer actions, collecting the yielded records. -/
def runIter : BestIter → List IterOp → List PoolRecord
  | _, [] => []
  | it, IterOp.pull :: ops =>
      match it.next with
      | none => runIter it ops
      | some (r, it') => r :: runIter it' ops
  | it, IterOp.invalid t :: ops => runIter (it.mark_invalid t) ops

/-! ## Basic lemmas about saturating arithmetic -/

theorem satAddU256_le (a b : Nat) : satAddU256 a b ≤ U256_MAX :=
  min_le_right _ _

/-! ## Claims about the concrete code -/

/-- Claim C10: `GetPooledTransactionLimit::None` never exceeds, and a
soft limit is exceeded exactly when the size is strictly greater than the
limit; a response whose size equals the limit does not exceed it. -/
theorem exceeds_spec (size limit : Nat) :
    GetPooledTransactionLimit.None.exceeds size = false ∧
      (GetPooledTransactionLimit.exceeds
          (GetPooledTransactionLimit.ResponseSizeSoftLimit limit) size = true ↔
        limit < size) ∧
      GetPooledTransactionLimit.exceeds
        (GetPooledTransactionLimit.ResponseSizeSoftLimit size) size = false := by
  refine ⟨rfl, ?_, ?_⟩ <;> simp [GetPooledTransactionLimit.exceeds]

/-- Claim C9: `CanonicalStateUpdate::block_info` records the tip block's
hash, number and gas limit, the pending base fee and the pending blob fee. -/
theorem block_info_fields (u : CanonicalStateUpdate) :
    u.block_info.last_seen_block_hash = u.new_tip.hash ∧
      u.block_info.last_seen_block_number = u.new_tip.number ∧
      u.block_info.block_gas_limit = u.new_tip.gas_limit ∧
      u.block_info.pending_basefee = u.pending_block_base_fee ∧
      u.block_info.pending_blob_fee = u.pending_block_blob_fee :=
  ⟨rfl, rfl, rfl, rfl, rfl⟩

/-- Claim C2: the constructor computes the cached cost as
`max_fee_per_gas * gas_limit + value`, plus `max_fee_per_blob_gas *
blob_gas_used` exactly when the transaction reports both blob fields, with
saturating multiplication and addition; the result stays within the `U256`
range for every input, so construction cannot overflow. -/
theorem new_cost_spec (t : Transaction) (l : Nat) :
    (EthPooledTransaction.new t l).cost =
      (if t.blob_gas_used.isSome ∧ t.max_fee_per_blob_gas.isSome then
        satAddU256
          (satAddU256 (satMulU256 t.max_fee_per_gas t.gas_limit) t.value)
          (satMulU128 (t.max_fee_per_blob_gas.getD 0) (t.blob_gas_used.getD 0))
      else satAddU256 (satMulU256 t.max_fee_per_gas t.gas_limit) t.value) ∧
      (EthPooledTransaction.new t l).cost ≤ U256_MAX := by
  constructor
  · by_cases h : t.ty = TxType.eip4844 <;>
      simp [EthPooledTransaction.new, Transaction.blob_gas_used,
        Transaction.max_fee_per_blob_gas, h]
  · by_cases h : t.ty = TxType.eip4844 <;>
      simp [EthPooledTransaction.new, Transaction.blob_gas_used,
        Transaction.max_fee_per_blob_gas, h, satAddU256_le]

/-- Claim C7: construction initializes the blob-sidecar state to `Missing`
exactly for blob-type (EIP-4844) transactions when no sidecar is attached,
to `None` exactly for non-blob transactions, and to `Present` with the
provided sidecar when building from the pooled EIP-4844 network format. -/
theorem blob_sidecar_init (t tx : Transaction) (l len : Nat)
    (sc : BlobTransactionSidecarVariant) :
    ((EthPooledTransaction.new t l).blob_sidecar =
        EthBlobTransactionSidecar.Missing ↔ t.is_eip4844 = true) ∧
      ((EthPooledTransaction.new t l).blob_sidecar =
        EthBlobTransactionSidecar.None ↔ t.is_eip4844 = false) ∧
      (EthPooledTransaction.from_pooled
          (PooledTransactionVariant.eip4844 tx sc len)).blob_sidecar =
        EthBlobTransactionSidecar.Present sc := by
  refine ⟨?_, ?_, rfl⟩ <;>
    (by_cases h : t.ty = TxType.eip4844 <;>
      simp [EthPooledTransaction.new, Transaction.blob_gas_used,
        Transaction.max_fee_per_blob_gas, Transaction.is_eip4844, h])

/-- Claim C8: on a record whose sidecar state is `Present`, `take_blob`
moves the state to `Missing` and returns the old `Present` value, leaving
the transaction, the cached cost and the encoded length unchanged.
Records with a `Present` sidecar are EIP-4844 by construction, which the
hypothesis `h4844` reflects. -/
theorem take_blob_present (p : EthPooledTransaction)
    (sc : BlobTransactionSidecarVariant)
    (h4844 : p.transaction.is_eip4844 = true)
    (hp : p.blob_sidecar = EthBlobTransactionSidecar.Present sc) :
    p.take_blob.1.blob_sidecar = EthBlobTransactionSidecar.Missing ∧
      p.take_blob.2 = EthBlobTransactionSidecar.Present sc ∧
      p.take_blob.1.transaction = p.transaction ∧
      p.take_blob.1.cost = p.cost ∧
      p.take_blob.1.encoded_length = p.encoded_length := by
  simp [EthPooledTransaction.take_blob, h4844, hp]

/-- A concrete EIP-4844 pool record with an attached sidecar, used to
witness `take_blob_present`. -/
def blobRecordExample : EthPooledTransaction :=
  { transaction :=
      { hash := 7, sender := 1, nonce := 0, ty := TxType.eip4844
        gas_limit := 21000, max_fee_per_gas := 50
        max_priority_fee_per_gas := 2, value := 3
        blob_gas_used_val := 131072, max_fee_per_blob_gas_val := 4 }
    cost := 0
    encoded_length := 100
    blob_sidecar := EthBlobTransactionSidecar.Present ⟨[5]⟩ }

/-- Witness for claim C8 at a concrete record. -/
theorem take_blob_present_witness :
    blobRecordExample.transaction.is_eip4844 = true ∧
      blobRecordExample.blob_sidecar =
        EthBlobTransactionSidecar.Present ⟨[5]⟩ ∧
      (blobRecordExample.take_blob.1.blob_sidecar =
          EthBlobTransactionSidecar.Missing ∧
        blobRecordExample.take_blob.2 =
          EthBlobTransactionSidecar.Present ⟨[5]⟩ ∧
        blobRecordExample.take_blob.1.transaction =
          blobRecordExample.transaction ∧
        blobRecordExample.take_blob.1.cost = blobRecordExample.cost ∧
        blobRecordExample.take_blob.1.encoded_length =
          blobRecordExample.encoded_length) :=
  ⟨by decide, by decide,
    take_blob_present blobRecordExample ⟨[5]⟩ (by decide) (by decide)⟩

/-! ## Classification invariant of the pool model -/

theorem reclassifyAll_on_chain_nonce (s : PoolState) :
    (reclassifyAll s).on_chain_nonce = s.on_chain_nonce := rfl

theorem reclassifyAll_pending_basefee (s : PoolState) :
    (reclassifyAll s).pending_basefee = s.pending_basefee := rfl

theorem reclassifyAll_pending_blob_fee (s : PoolState) :
    (reclassifyAll s).pending_blob_fee = s.pending_blob_fee := rfl

theorem hasTx_reclassifyAll (s : PoolState) (a n : Nat) :
    (reclassifyAll s).hasTx a n = s.hasTx a n := by
  simp only [PoolState.hasTx, reclassifyAll, List.any_map]
  rfl

theorem nonceConsecutive_reclassifyAll (s : PoolState) (t : Transaction) :
    nonceConsecutive (reclassifyAll s) t = nonceConsecutive s t := by
  simp only [nonceConsecutive, hasTx_reclassifyAll,
    reclassifyAll_on_chain_nonce]

theorem feeOk_reclassifyAll (s : PoolState) (t : Transaction) :
    feeOk (reclassifyAll s) t = feeOk s t := rfl

theorem blobFeeOk_reclassifyAll (s : PoolState) (t : Transaction) :
    blobFeeOk (reclassifyAll s) t = blobFeeOk s t := rfl

theorem targetSubPool_reclassifyAll (s : PoolState) (r : PoolRecord) :
    targetSubPool (reclassifyAll s) r = targetSubPool s r := by
  simp only [targetSubPool, nonceConsecutive_reclassifyAll,
    feeOk_reclassifyAll, blobFeeOk_reclassifyAll]

theorem classified_reclassifyAll (s : PoolState) :
    Classified (reclassifyAll s) := by
  intro e he
  have he' : e ∈ s.entries.map
      (fun e => { e with assigned := targetSubPool s e.record }) := he
  rw [List.mem_map] at he'
  obtain ⟨e', _, rfl⟩ := he'
  show targetSubPool s e'.record = targetSubPool (reclassifyAll s) _
  exact (targetSubPool_reclassifyAll s e'.record).symm

theorem targetSubPool_deleteBlob (s : PoolState) (h : Nat) (r : PoolRecord) :
    targetSubPool (deleteBlob s h) r = targetSubPool s r := rfl

theorem classified_addTransaction (s : PoolState) (r : PoolRecord)
    (h : Classified s) : Classified (addTransaction s r).1 := by
  unfold addTransaction
  split
  · exact h
  · split
    · exact h
    · split
      · split
        · exact classified_reclassifyAll _
        · exact h
      · exact classified_reclassifyAll _

theorem classified_applyCanonicalUpdate (s : PoolState)
    (u : CanonicalStateUpdate) : Classified (applyCanonicalUpdate s u).1 :=
  classified_reclassifyAll _

theorem classified_attachSidecar (s : PoolState) (h : Nat)
    (sc : BlobTransactionSidecarVariant) :
    Classified (attachSidecar s h sc) :=
  classified_reclassifyAll _

theorem classified_deleteBlob (s : PoolState) (h : Nat)
    (hc : Classified s) : Classified (deleteBlob s h) := by
  intro e he
  rw [targetSubPool_deleteBlob]
  exact hc e he

theorem classified_step (s : PoolState) (op : PoolOp)
    (h : Classified s) : Classified (s.step op) := by
  cases op with
  | add r => exact classified_addTransaction s r h
  | canon u => exact classified_applyCanonicalUpdate s u
  | attach hh sc => exact classified_attachSidecar s hh sc
  | delBlob hh => exact classified_deleteBlob s hh h

theorem classified_applyOps (s : PoolState) (ops : List PoolOp)
    (h : Classified s) : Classified (applyOps s ops) := by
  induction ops generalizing s with
  | nil => exact h
  | cons op ops ih => exact ih _ (classified_step s op h)

theorem classified_initPool (nonce : Nat → Nat) (basefee : Nat)
    (blobfee : Option Nat) : Classified (initPool nonce basefee blobfee) := by
  intro e he
  simp [initPool] at he

theorem classified_of_reachable (s : PoolState) (hs : Reachable s) :
    Classified s := by
  obtain ⟨nonce, basefee, blobfee, ops, rfl⟩ := hs
  exact classified_applyOps _ _ (classified_initPool nonce basefee blobfee)

theorem target_pending_iff (s : PoolState) (r : PoolRecord) :
    targetSubPool s r = SubPool.Pending ↔
      nonceConsecutive s r.tx = true ∧ feeOk s r.tx = true ∧
        (r.tx.is_eip4844 = true →
          blobFeeOk s r.tx = true ∧ sidecarPresent r = true) := by
  unfold targetSubPool
  by_cases h1 : nonceConsecutive s r.tx = true <;>
    by_cases h2 : r.tx.is_eip4844 = true <;>
      by_cases h3 : feeOk s r.tx = true <;>
        by_cases h4 : blobFeeOk s r.tx = true <;>
          by_cases h5 : sidecarPresent r = true <;>
            simp [h1, h2, h3, h4, h5]

/-- Claim C1: in every reachable pool state, a transaction is in the
pending sub-pool iff it is nonce-consecutive from its sender's on-chain
nonce, its `max_fee_per_gas` clears the pending base fee, and, when it is
a blob transaction, its `max_fee_per_blob_gas` clears the pending blob fee
and its blob sidecar is `Present`. -/
theorem pending_iff (s : PoolState) (e : PoolEntry)
    (hs : Reachable s) (he : e ∈ s.entries) :
    e.assigned = SubPool.Pending ↔
      nonceConsecutive s e.record.tx = true ∧
        feeOk s e.record.tx = true ∧
        (e.record.tx.is_eip4844 = true →
          blobFeeOk s e.record.tx = true ∧
            sidecarPresent e.record = true) := by
  rw [classified_of_reachable s hs e he]
  exact target_pending_iff s e.record

/-- The all-zero on-chain nonce assignment. -/
def zeroNonces : Nat → Nat := fun _ => 0

/-- A concrete EIP-1559 record used to build reachable example states. -/
def simpleRecord : PoolRecord :=
  { ptx := EthPooledTransaction.new
      { hash := 1, sender := 1, nonce := 0, ty := TxType.eip1559
        gas_limit := 21000, max_fee_per_gas := 10
        max_priority_fee_per_gas := 1, value := 0
        blob_gas_used_val := 0, max_fee_per_blob_gas_val := 0 } 100
    timestamp := 0 }

/-- A pool state reached by inserting one transaction into an empty pool
with pending base fee 5. -/
def reachableExample : PoolState :=
  applyOps (initPool zeroNonces 5 Option.none) [PoolOp.add simpleRecord]

/-- Witness for claim C1 at a concrete reachable state. -/
theorem pending_iff_witness :
    Reachable reachableExample ∧
      (⟨simpleRecord, SubPool.Pending⟩ : PoolEntry) ∈
        reachableExample.entries ∧
      ((⟨simpleRecord, SubPool.Pending⟩ : PoolEntry).assigned =
          SubPool.Pending ↔
        nonceConsecutive reachableExample simpleRecord.tx = true ∧
          feeOk reachableExample simpleRecord.tx = true ∧
          (simpleRecord.tx.is_eip4844 = true →
            blobFeeOk reachableExample simpleRecord.tx = true ∧
              sidecarPresent simpleRecord = true)) :=
  ⟨⟨zeroNonces, 5, Option.none, [PoolOp.add simpleRecord], rfl⟩,
    by decide,
    pending_iff reachableExample ⟨simpleRecord, SubPool.Pending⟩
      ⟨zeroNonces, 5, Option.none, [PoolOp.add simpleRecord], rfl⟩
      (by decide)⟩

theorem length_eq_counts (l : List PoolEntry) :
    l.length =
      (l.filter fun e => decide (e.assigned = SubPool.Pending)).length +
        (l.filter fun e => decide (e.assigned = SubPool.BaseFee)).length +
        (l.filter fun e => decide (e.assigned = SubPool.Blob)).length +
        (l.filter fun e => decide (e.assigned = SubPool.Queued)).length := by
  induction l with
  | nil => rfl
  | cons e t ih =>
      cases he : e.assigned <;> simp [List.filter_cons, he, ih] <;> omega

/-- Claim C4: in every reachable pool state, the `PoolSize` reported by
`pool_size` satisfies `total = pending + basefee + blob + queued`. -/
theorem pool_size_total_eq (s : PoolState) (_hs : Reachable s) :
    (pool_size s).total =
      (pool_size s).pending + (pool_size s).basefee +
        (pool_size s).blob + (pool_size s).queued := by
  simpa [pool_size] using length_eq_counts s.entries

/-- Witness for claim C4 at a concrete reachable state. -/
theorem pool_size_total_eq_witness :
    Reachable reachableExample ∧
      (pool_size reachableExample).total =
        (pool_size reachableExample).pending +
          (pool_size reachableExample).basefee +
          (pool_size reachableExample).blob +
          (pool_size reachableExample).queued :=
  ⟨⟨zeroNonces, 5, Option.none, [PoolOp.add simpleRecord], rfl⟩,
    pool_size_total_eq reachableExample
      ⟨zeroNonces, 5, Option.none, [PoolOp.add simpleRecord], rfl⟩⟩

/-! ## Nonce lower-bound invariant of the pool model -/

/-- Every transaction in the pool has a nonce at least its sender's tracked
on-chain nonce. -/
def NonceBound (s : PoolState) : Prop :=
  ∀ e ∈ s.entries,
    s.on_chain_nonce e.record.tx.sender ≤ e.record.tx.nonce

theorem nonceBound_reclassifyAll (s : PoolState) (h : NonceBound s) :
    NonceBound (reclassifyAll s) := by
  intro e he
  have he' : e ∈ s.entries.map
      (fun e => { e with assigned := targetSubPool s e.record }) := he
  rw [List.mem_map] at he'
  obtain ⟨e', he', rfl⟩ := he'
  exact h e' he'

theorem nonceBound_addTransaction (s : PoolState) (r : PoolRecord)
    (h : NonceBound s) : NonceBound (addTransaction s r).1 := by
  unfold addTransaction
  split
  · exact h
  · split
    · exact h
    · rename_i hdup hnlow
      have hge : s.on_chain_nonce r.tx.sender ≤ r.tx.nonce := by
        simpa using hnlow
      have hbase : ∀ (l : List PoolEntry),
          (∀ e ∈ l, e ∈ s.entries) →
          NonceBound
            { s with
              entries := l ++ [{ record := r, assigned := SubPool.Queued }]
              blob_store :=
                storeSidecar s.blob_store r.tx.hash r.ptx.blob_sidecar } := by
        intro l hl e he
        have he' : e ∈ l ++ [{ record := r, assigned := SubPool.Queued }] := he
        rcases List.mem_append.mp he' with h1 | h2
        · exact h e (hl e h1)
        · rw [List.mem_singleton] at h2
          subst h2
          exact hge
      split
      · split
        · apply nonceBound_reclassifyAll
          apply hbase
          intro e he
          exact List.mem_of_mem_filter he
        · exact h
      · apply nonceBound_reclassifyAll
        apply hbase
        intro e he
        exact he

theorem nonceBound_applyChangedAccounts (s : PoolState)
    (accs : List ChangedAccount) :
    NonceBound (applyChangedAccounts s accs) := by
  intro e he
  have he' : e ∈ s.entries.filter fun e =>
      decide (updatedNonces s.on_chain_nonce accs e.record.tx.sender ≤
        e.record.tx.nonce) := he
  have hp := List.of_mem_filter he'
  simpa using hp

theorem nonceBound_applyCanonicalUpdate (s : PoolState)
    (u : CanonicalStateUpdate) :
    NonceBound (applyCanonicalUpdate s u).1 :=
  nonceBound_reclassifyAll _ (nonceBound_applyChangedAccounts _ _)

theorem attachEntry_tx (h : Nat) (sc : BlobTransactionSidecarVariant)
    (e : PoolEntry) : (attachEntry h sc e).record.tx = e.record.tx := by
  unfold attachEntry
  split <;> rfl

theorem nonceBound_attachSidecar (s : PoolState) (h : Nat)
    (sc : BlobTransactionSidecarVariant) (hb : NonceBound s) :
    NonceBound (attachSidecar s h sc) := by
  apply nonceBound_reclassifyAll
  intro e he
  have he' : e ∈ s.entries.map (attachEntry h sc) := he
  rw [List.mem_map] at he'
  obtain ⟨e', he', rfl⟩ := he'
  rw [show ({ s with
      entries := s.entries.map (attachEntry h sc)
      blob_store := _ } : PoolState).on_chain_nonce = s.on_chain_nonce
    from rfl]
  rw [attachEntry_tx]
  exact hb e' he'

theorem nonceBound_deleteBlob (s : PoolState) (h : Nat)
    (hb : NonceBound s) : NonceBound (deleteBlob s h) := by
  intro e he
  exact hb e he

theorem nonceBound_step (s : PoolState) (op : PoolOp)
    (h : NonceBound s) : NonceBound (s.step op) := by
  cases op with
  | add r => exact nonceBound_addTransaction s r h
  | canon u => exact nonceBound_applyCanonicalUpdate s u
  | attach hh sc => exact nonceBound_attachSidecar s hh sc h
  | delBlob hh => exact nonceBound_deleteBlob s hh h

theorem nonceBound_applyOps (s : PoolState) (ops : List PoolOp)
    (h : NonceBound s) : NonceBound (applyOps s ops) := by
  induction ops generalizing s with
  | nil => exact h
  | cons op ops ih => exact ih _ (nonceBound_step s op h)

theorem nonceBound_of_reachable (s : PoolState) (hs : Reachable s) :
    NonceBound s := by
  obtain ⟨nonce, basefee, blobfee, ops, rfl⟩ := hs
  apply nonceBound_applyOps
  intro e he
  simp [initPool] at he

/-! ## Replacement policy -/

theorem containsHash_reclassifyAll (s : PoolState) (h : Nat) :
    (reclassifyAll s).containsHash h = s.containsHash h := by
  simp only [PoolState.containsHash, reclassifyAll, List.any_map]
  rfl

/-- Claim C3: when the incoming transaction collides with an incumbent of
the same sender and nonce, insertion replaces the incumbent exactly when
the incoming bids at least `price_bump_percent` higher on every applicable
fee; on success the incumbent leaves the pool, the incoming enters it and
a `Replaced` event is emitted; otherwise the outcome is
`ReplaceUnderpriced` and the pool is unchanged. -/
theorem replacement_policy (s : PoolState) (r : PoolRecord)
    (inc : PoolEntry) (hs : Reachable s)
    (hdup : s.containsHash r.tx.hash = false)
    (hcol : findCollision s r.tx = some inc) :
    (bumpOk inc.record.tx r.tx price_bump_percent = true →
      (addTransaction s r).2.1 = AddOutcome.added ∧
        (addTransaction s r).1.containsHash r.tx.hash = true ∧
        (addTransaction s r).1.containsHash inc.record.tx.hash = false ∧
        (addTransaction s r).2.2 =
          [PoolEvent.replaced inc.record.tx.hash]) ∧
    (bumpOk inc.record.tx r.tx price_bump_percent = false →
      (addTransaction s r).2.1 = AddOutcome.replaceUnderpriced ∧
        (addTransaction s r).1 = s ∧
        (addTransaction s r).2.2 = []) := by
  have hmem : inc ∈ s.entries := List.mem_of_find?_eq_some hcol
  have hpred := List.find?_some hcol
  rw [decide_eq_true_eq] at hpred
  obtain ⟨hsender, hnonce⟩ := hpred
  have hge : s.on_chain_nonce r.tx.sender ≤ r.tx.nonce := by
    rw [← hsender, ← hnonce]
    exact nonceBound_of_reachable s hs inc hmem
  have hlt : decide (r.tx.nonce < s.on_chain_nonce r.tx.sender) = false :=
    decide_eq_false (Nat.not_lt.mpr hge)
  have hne : inc.record.tx.hash ≠ r.tx.hash := by
    intro hEq
    have hcon : s.containsHash r.tx.hash = true := by
      simp only [PoolState.containsHash, List.any_eq_true]
      exact ⟨inc, hmem, by rw [decide_eq_true_eq, hEq]⟩
    rw [hcon] at hdup
    exact absurd hdup (by decide)
  constructor
  · intro hbump
    have hred : addTransaction s r =
        (reclassifyAll
            { s with
              entries :=
                (s.entries.filter fun e =>
                  decide (e.record.tx.hash ≠ inc.record.tx.hash)) ++
                  [{ record := r, assigned := SubPool.Queued }]
              blob_store :=
                storeSidecar s.blob_store r.tx.hash r.ptx.blob_sidecar },
          AddOutcome.added, [PoolEvent.replaced inc.record.tx.hash]) := by
      unfold addTransaction
      rw [hcol]
      simp [hdup, hlt, hbump]
    rw [hred]
    refine ⟨rfl, ?_, ?_, rfl⟩
    · rw [containsHash_reclassifyAll]
      simp [PoolState.containsHash]
    · rw [containsHash_reclassifyAll]
      simp only [PoolState.containsHash, List.any_append,
        Bool.or_eq_false_iff]
      constructor
      · rw [List.any_eq_false]
        intro e he
        have hp := List.of_mem_filter he
        rw [decide_eq_true_eq] at hp
        simpa using hp
      · simp [Ne.symm hne]
  · intro hbump
    have hred : addTransaction s r = (s, AddOutcome.replaceUnderpriced, []) := by
      unfold addTransaction
      rw [hcol]
      simp [hdup, hlt, hbump]
    rw [hred]
    exact ⟨rfl, rfl, rfl⟩

/-- The incumbent of the replacement example: `max_fee_per_gas = 100`,
`max_priority_fee_per_gas = 10`. -/
def incumbentRecord : PoolRecord :=
  { ptx := EthPooledTransaction.new
      { hash := 10, sender := 1, nonce := 0, ty := TxType.eip1559
        gas_limit := 21000, max_fee_per_gas := 100
        max_priority_fee_per_gas := 10, value := 0
        blob_gas_used_val := 0, max_fee_per_blob_gas_val := 0 } 100
    timestamp := 0 }

/-- The pool holding the incumbent, reached by inserting it into an empty
pool. -/
def replacementPool : PoolState :=
  applyOps (initPool zeroNonces 0 Option.none) [PoolOp.add incumbentRecord]

/-- The incumbent's entry inside `replacementPool`. -/
def incumbentEntry : PoolEntry := ⟨incumbentRecord, SubPool.Pending⟩

/-- An underpriced replacement bid: `max_fee_per_gas = 109` (< 10 percent
above 100). -/
def lowBidRecord : PoolRecord :=
  { ptx := EthPooledTransaction.new
      { hash := 11, sender := 1, nonce := 0, ty := TxType.eip1559
        gas_limit := 21000, max_fee_per_gas := 109
        max_priority_fee_per_gas := 11, value := 0
        blob_gas_used_val := 0, max_fee_per_blob_gas_val := 0 } 100
    timestamp := 1 }

/-- A sufficient replacement bid: `max_fee_per_gas = 110`,
`max_priority_fee_per_gas = 11`. -/
def highBidRecord : PoolRecord :=
  { ptx := EthPooledTransaction.new
      { hash := 12, sender := 1, nonce := 0, ty := TxType.eip1559
        gas_limit := 21000, max_fee_per_gas := 110
        max_priority_fee_per_gas := 11, value := 0
        blob_gas_used_val := 0, max_fee_per_blob_gas_val := 0 } 100
    timestamp := 2 }

/-- Witness for claim C3: against an incumbent at `max_fee_per_gas = 100`,
`max_priority_fee = 10`, a 109 bid is rejected as underpriced leaving the
pool unchanged, and a 110/11 bid replaces the incumbent and emits
`Replaced`. -/
theorem replacement_policy_witness :
    ((addTransaction replacementPool lowBidRecord).2.1 =
        AddOutcome.replaceUnderpriced ∧
      (addTransaction replacementPool lowBidRecord).1 = replacementPool ∧
      (addTransaction replacementPool lowBidRecord).2.2 = []) ∧
    ((addTransaction replacementPool highBidRecord).2.1 =
        AddOutcome.added ∧
      (addTransaction replacementPool highBidRecord).1.containsHash
        highBidRecord.tx.hash = true ∧
      (addTransaction replacementPool highBidRecord).1.containsHash
        incumbentEntry.record.tx.hash = false ∧
      (addTransaction replacementPool highBidRecord).2.2 =
        [PoolEvent.replaced incumbentEntry.record.tx.hash]) :=
  ⟨(replacement_policy replacementPool lowBidRecord incumbentEntry
      ⟨zeroNonces, 0, Option.none, [PoolOp.add incumbentRecord], rfl⟩
      (by decide) (by decide)).2 (by decide),
    (replacement_policy replacementPool highBidRecord incumbentEntry
      ⟨zeroNonces, 0, Option.none, [PoolOp.add incumbentRecord], rfl⟩
      (by decide) (by decide)).1 (by decide)⟩

/-! ## Mined blob transactions and blob-store retention -/

theorem containsHash_removeMined (s : PoolState) (mined : List Nat)
    (h : Nat) (hm : h ∈ mined) :
    (removeMined s mined).containsHash h = false := by
  have : (s.entries.filter fun e =>
      ! mined.contains e.record.tx.hash).any
        (fun e => decide (e.record.tx.hash = h)) = false := by
    rw [List.any_eq_false]
    intro e he
    have hp := List.of_mem_filter he
    rw [Bool.not_eq_true'] at hp
    rw [decide_eq_true_eq]
    intro hEq
    rw [hEq] at hp
    have hc : mined.contains h = true := List.elem_eq_true_of_mem hm
    rw [hc] at hp
    exact absurd hp (by decide)
  exact this

theorem containsHash_applyChangedAccounts_false (s : PoolState)
    (accs : List ChangedAccount) (h : Nat)
    (hc : s.containsHash h = false) :
    (applyChangedAccounts s accs).containsHash h = false := by
  cases hq : (applyChangedAccounts s accs).containsHash h with
  | false => rfl
  | true =>
      exfalso
      have hq' : (s.entries.filter fun e =>
          decide (updatedNonces s.on_chain_nonce accs e.record.tx.sender ≤
            e.record.tx.nonce)).any
            (fun e => decide (e.record.tx.hash = h)) = true := hq
      rw [List.any_eq_true] at hq'
      obtain ⟨e, he, hp⟩ := hq'
      have hcon : s.containsHash h = true := by
        rw [PoolState.containsHash, List.any_eq_true]
        exact ⟨e, List.mem_of_mem_filter he, hp⟩
      rw [hcon] at hc
      exact absurd hc (by decide)

theorem getBlob_deleteBlob (s : PoolState) (h : Nat) :
    getBlob (deleteBlob s h) h = Option.none := by
  have key : ∀ (l : List (Nat × BlobTransactionSidecarVariant)),
      (l.filter fun p => decide (p.1 ≠ h)).find?
        (fun p => decide (p.1 = h)) = Option.none := by
    intro l
    induction l with
    | nil => rfl
    | cons x t ih =>
        by_cases hx : x.1 = h
        · simp [List.filter_cons, hx, ih]
        · simp [List.filter_cons, hx, List.find?, ih]
  show ((s.blob_store.filter fun p => decide (p.1 ≠ h)).find?
      (fun p => decide (p.1 = h))).map Prod.snd = Option.none
  rw [key]
  rfl

/-- Claim C5: a canonical-state update whose mined transactions contain a
pooled transaction's hash removes that transaction from the pool index
(and hence from every sub-pool), while `get_blob` still returns its
sidecar unchanged until `delete_blob` is invoked separately, which then
removes it from the blob store. -/
theorem mined_blob_retained (s : PoolState) (u : CanonicalStateUpdate)
    (h : Nat) (sc : BlobTransactionSidecarVariant)
    (hm : h ∈ u.mined_transactions)
    (hb : getBlob s h = some sc) :
    (applyCanonicalUpdate s u).1.containsHash h = false ∧
      getBlob (applyCanonicalUpdate s u).1 h = some sc ∧
      getBlob (deleteBlob (applyCanonicalUpdate s u).1 h) h =
        Option.none := by
  refine ⟨?_, ?_, ?_⟩
  · rw [show (applyCanonicalUpdate s u).1 = reclassifyAll
        (applyChangedAccounts
          (removeMined (recordBlockInfo s u) u.mined_transactions)
          u.changed_accounts) from rfl]
    rw [containsHash_reclassifyAll]
    exact containsHash_applyChangedAccounts_false _ _ _
      (containsHash_removeMined _ _ _ hm)
  · rw [show getBlob (applyCanonicalUpdate s u).1 h = getBlob s h from rfl]
    exact hb
  · exact getBlob_deleteBlob _ _

/-- A pool state holding the example blob transaction (hash 7) with its
sidecar both attached and recorded in the blob store. -/
def blobPoolExample : PoolState :=
  { entries := [⟨⟨blobRecordExample, 0⟩, SubPool.Pending⟩]
    on_chain_nonce := zeroNonces
    pending_basefee := 0
    pending_blob_fee := some 1
    blob_store := [(7, ⟨[5]⟩)]
    last_seen_block_hash := 0
    last_seen_block_number := 0
    block_gas_limit := 0 }

/-- A canonical-state update that mines the example blob transaction. -/
def minedUpdateExample : CanonicalStateUpdate :=
  { new_tip := { hash := 100, number := 1, gas_limit := 30000000
                 timestamp := 999 }
    pending_block_base_fee := 7
    pending_block_blob_fee := some 1
    changed_accounts := []
    mined_transactions := [7]
    update_kind := PoolUpdateKind.Commit }

/-- Witness for claim C5 at a concrete pool, update and blob hash. -/
theorem mined_blob_retained_witness :
    (7 : Nat) ∈ minedUpdateExample.mined_transactions ∧
      getBlob blobPoolExample 7 =
        some (⟨[5]⟩ : BlobTransactionSidecarVariant) ∧
      ((applyCanonicalUpdate blobPoolExample minedUpdateExample).1.containsHash
          7 = false ∧
        getBlob (applyCanonicalUpdate blobPoolExample minedUpdateExample).1
          7 = some (⟨[5]⟩ : BlobTransactionSidecarVariant) ∧
        getBlob
          (deleteBlob
            (applyCanonicalUpdate blobPoolExample minedUpdateExample).1 7)
          7 = Option.none) :=
  ⟨by decide, by decide,
    mined_blob_retained blobPoolExample minedUpdateExample 7 ⟨[5]⟩
      (by decide) (by decide)⟩

/-! ## Exclusion after mark_invalid on the best-transactions iterator -/

theorem bestOf_mem (b : Nat) (l : List PoolRecord) (r : PoolRecord)
    (h : bestOf b l = some r) : r ∈ l := by
  induction l generalizing r with
  | nil => exact absurd h (by simp [bestOf])
  | cons x t ih =>
      simp only [bestOf] at h
      cases hb : bestOf b t with
      | none =>
          rw [hb] at h
          injection h with h
          subst h
          exact List.mem_cons_self _ _
      | some best =>
          rw [hb] at h
          have h' : (if betterThan b x best = true then some x
              else some best) = some r := h
          by_cases hc : betterThan b x best = true
          · rw [if_pos hc] at h'
            injection h' with h'
            subst h'
            exact List.mem_cons_self _ _
          · rw [if_neg hc] at h'
            injection h' with h'
            subst h'
            exact List.mem_cons_of_mem _ (ih _ hb)

theorem next_eq_some (it : BestIter) (r : PoolRecord) (it' : BestIter)
    (h : it.next = some (r, it')) :
    r ∈ it.txs ∧ it'.txs = it.txs.erase r := by
  unfold BestIter.next at h
  cases hb : bestOf it.basefee (it.txs.filter (executableNow it.txs)) with
  | none => rw [hb] at h; exact absurd h (by simp)
  | some x =>
      rw [hb] at h
      injection h with h
      have h1 : x = r := congrArg Prod.fst h
      have h2 : ({ it with txs := it.txs.erase x } : BestIter) = it' :=
        congrArg Prod.snd h
      subst h1
      refine ⟨List.mem_of_mem_filter (bestOf_mem _ _ _ hb), ?_⟩
      rw [← h2]

/-- No record of sender `t.sender` with nonce at least `t.nonce` occurs in
the list. -/
def ExcludedFrom (t : Transaction) (l : List PoolRecord) : Prop :=
  ∀ r ∈ l, ¬(r.tx.sender = t.sender ∧ t.nonce ≤ r.tx.nonce)

theorem runIter_excluded (t : Transaction) (ops : List IterOp)
    (it : BestIter) (hx : ExcludedFrom t it.txs) :
    ∀ r ∈ runIter it ops,
      ¬(r.tx.sender = t.sender ∧ t.nonce ≤ r.tx.nonce) := by
  induction ops generalizing it with
  | nil =>
      intro r hr
      exact absurd hr (by simp [runIter])
  | cons op ops ih =>
      cases op with
      | pull =>
          intro r hr
          simp only [runIter] at hr
          cases hnx : it.next with
          | none =>
              rw [hnx] at hr
              exact ih it hx r hr
          | some p =>
              obtain ⟨r', it'⟩ := p
              rw [hnx] at hr
              obtain ⟨hmem, htxs⟩ := next_eq_some it r' it' hnx
              rcases List.mem_cons.mp hr with h1 | hr'
              · subst h1
                exact hx r hmem
              · refine ih it' ?_ r hr'
                intro y hy
                rw [htxs] at hy
                exact hx y (List.mem_of_mem_erase hy)
      | invalid t' =>
          intro r hr
          simp only [runIter] at hr
          refine ih (it.mark_invalid t') ?_ r hr
          intro y hy
          have hy' : y ∈ it.txs.filter
              (fun r => ! decide (r.tx.sender = t'.sender ∧
                t'.nonce ≤ r.tx.nonce)) := hy
          exact hx y (List.mem_of_mem_filter hy')

/-- Claim C6: once `mark_invalid(tx)` has been called on a
best-transactions iterator, the remaining iteration — under any further
sequence of pulls and invalidations — never yields `tx` again, nor any
transaction of the same sender whose nonce is at least the nonce of `tx`. -/
theorem mark_invalid_excludes (it : BestIter) (t : Transaction)
    (ops : List IterOp) (r : PoolRecord)
    (hr : r ∈ runIter (it.mark_invalid t) ops) :
    ¬(r.tx.sender = t.sender ∧ t.nonce ≤ r.tx.nonce) := by
  refine runIter_excluded t ops (it.mark_invalid t) ?_ r hr
  intro y hy
  have hy' : y ∈ it.txs.filter
      (fun r => ! decide (r.tx.sender = t.sender ∧
        t.nonce ≤ r.tx.nonce)) := hy
  have hp := List.of_mem_filter hy'
  rw [Bool.not_eq_true'] at hp
  exact of_decide_eq_false hp

/-- A record of sender 1, nonce 0 for the iterator example. -/
def iterRecordA : PoolRecord :=
  { ptx := EthPooledTransaction.new
      { hash := 20, sender := 1, nonce := 0, ty := TxType.eip1559
        gas_limit := 21000, max_fee_per_gas := 50
        max_priority_fee_per_gas := 5, value := 0
        blob_gas_used_val := 0, max_fee_per_blob_gas_val := 0 } 100
    timestamp := 0 }

/-- A record of sender 2, nonce 5 for the iterator example. -/
def iterRecordB : PoolRecord :=
  { ptx := EthPooledTransaction.new
      { hash := 21, sender := 2, nonce := 5, ty := TxType.eip1559
        gas_limit := 21000, max_fee_per_gas := 90
        max_priority_fee_per_gas := 9, value := 0
        blob_gas_used_val := 0, max_fee_per_blob_gas_val := 0 } 100
    timestamp := 1 }

/-- An iterator over both example records at base fee 0. -/
def iterExample : BestIter := { basefee := 0, txs := [iterRecordA, iterRecordB] }

/-- Witness for claim C6: after marking record B invalid, two pulls yield
only record A, which is not excluded. -/
theorem mark_invalid_excludes_witness :
    iterRecordA ∈ runIter (iterExample.mark_invalid iterRecordB.tx)
        [IterOp.pull, IterOp.pull] ∧
      ¬(iterRecordA.tx.sender = iterRecordB.tx.sender ∧
        iterRecordB.tx.nonce ≤ iterRecordA.tx.nonce) :=
  ⟨by decide,
    mark_invalid_excludes iterExample iterRecordB.tx
      [IterOp.pull, IterOp.pull] iterRecordA (by decide)⟩
